import Mathlib

/-!
# libdnn training drivers: `dnn-train.cpp` and `cnn-train.cpp`

A shallow embedding of the two training loops of libdnn and of their helpers
(`isEoutStopDecrease`, `getRandWeights`), followed by the properties of the
early-stopping predicate, of the epoch loops and of the weight initialiser.

Conventions of the embedding.

* `size_t` values are natural numbers below `2 ^ 64`; `size_t` subtraction is
  taken modulo `2 ^ 64` (`subSizeT`).
* `std::vector<size_t>` is `List Nat`; `v[k]` is unchecked in C++, so a read is
  `v[k]?` and an out-of-range read makes the computation undefined (`none`).
* `float` arithmetic is not interpreted: the loops are generic in a record
  `FloatOps F` of the operations they use.  Exact rational arithmetic
  (`ratOps`) is the instance used for concrete runs.
* The network objects (`DNN`, `CNN`) and the data sets are external
  collaborators.  What the loops do to them is recorded as a log of `Event`s;
  which samples the network misclassifies in each epoch is the input of a run
  (`Oracle`), from which `dnn_predict` and `cnn_predict` count the errors.
-/

namespace Libdnn

/-! ## Machine integers -/

/-- Number of values of the 64-bit type `size_t`. -/
def SIZE_MOD : Nat := 2 ^ 64

/-- The `size_t` subtraction `a - b`: it wraps around modulo `2 ^ 64`. -/
def subSizeT (a b : Nat) : Nat := (a + SIZE_MOD - b % SIZE_MOD) % SIZE_MOD

/-! ## `isEoutStopDecrease` (dnn-train.cpp, lines 213-221) -/

/-- What a call of `isEoutStopDecrease` did: the indices of `Eout` it read, in
order, and its return value (`none` when a read was outside the vector). -/
structure ReadTrace where
  reads : List Nat
  result : Option Bool
deriving DecidableEq, Repr

/-- The loop `for (size_t i = 0; i < nNonIncEpoch; ++i)` of
`isEoutStopDecrease`, entered with counter `i` and `remaining = nNonIncEpoch - i`
iterations to go; `reads` are the indices read so far.

Each iteration evaluates `epoch - i > 0 && Eout[epoch] > Eout[epoch - i]`:
the subtraction is a `size_t` subtraction, `&&` short-circuits, and both
operands of `>` are read from the vector. -/
def isEoutStopDecreaseLoop (Eout : List Nat) (epoch : Nat) :
    Nat → Nat → List Nat → ReadTrace
  | 0, _, reads => ⟨reads, some true⟩
  | remaining + 1, i, reads =>
    if subSizeT epoch i > 0 then
      match Eout[epoch]?, Eout[subSizeT epoch i]? with
      | some cur, some old =>
        if cur > old then
          ⟨reads ++ [epoch, subSizeT epoch i], some false⟩
        else
          isEoutStopDecreaseLoop Eout epoch remaining (i + 1)
            (reads ++ [epoch, subSizeT epoch i])
      | _, _ => ⟨reads ++ [epoch, subSizeT epoch i], none⟩
    else
      isEoutStopDecreaseLoop Eout epoch remaining (i + 1) reads

/-- The call `isEoutStopDecrease(Eout, epoch, nNonIncEpoch)` with the indices
it reads. -/
def isEoutStopDecreaseTrace (Eout : List Nat) (epoch nNonIncEpoch : Nat) : ReadTrace :=
  isEoutStopDecreaseLoop Eout epoch nNonIncEpoch 0 []

/-- The value returned by `isEoutStopDecrease(Eout, epoch, nNonIncEpoch)`;
`none` when the call reads outside `Eout`. -/
def isEoutStopDecrease (Eout : List Nat) (epoch nNonIncEpoch : Nat) : Option Bool :=
  (isEoutStopDecreaseTrace Eout epoch nNonIncEpoch).result

/-! ## External collaborators -/

/-- A sample index range `[offset, offset + nData)` handed out by `Batches`. -/
structure Batch where
  offset : Nat
  nData : Nat
deriving DecidableEq, Repr

/-- Modelled from the spec: the batch partitioner `Batches(batchSize, N)` of
`batch.h`, which is not among the sources.  It yields the contiguous ranges of
`batchSize` samples covering `[0, N)` in ascending order; when `N` is not a
multiple of `batchSize` the final range holds the `N mod batchSize` samples
that are left.  (`batchSize = 0` is outside the configuration the spec allows
and yields no batch here.) -/
def Batches (batchSize N : Nat) : List Batch :=
  (List.range ((N + batchSize - 1) / batchSize)).map fun k =>
    ⟨k * batchSize, min batchSize (N - k * batchSize)⟩

/-- The `float` operations the training loops use, left uninterpreted. -/
structure FloatOps (F : Type) where
  /-- Conversion `(float) n` of a `size_t`. -/
  ofSizeT : Nat → F
  /-- The constant `0`. -/
  zero : F
  /-- The constant `1.0f`. -/
  one : F
  /-- Subtraction `a - b`. -/
  sub : F → F → F
  /-- Division `a / b`. -/
  div : F → F → F
  /-- Comparison `a < b` (`a > b` is `lt b a`). -/
  lt : F → F → Bool

/-- Exact rational arithmetic as an instance of the `float` operations. -/
def ratOps : FloatOps ℚ where
  ofSizeT := fun n => (n : ℚ)
  zero := 0
  one := 1
  sub := fun a b => a - b
  div := fun a b => a / b
  lt := fun a b => decide (a < b)

/-- Modelled from the spec: the record `Config`, whose declaration is not among the
sources, with the fields the loops read.  The spec keeps it read-only after
construction; the fields are taken not to change during a run. -/
structure Config (F : Type) where
  learningRate : F
  minValidAccuracy : F
  maxEpoch : Nat
  nNonIncEpoch : Nat

/-- The two stages whose parameters a model file holds. -/
inductive Stage
  | cnn
  | dnn
deriving DecidableEq, Repr

/-- The calls a training loop makes on its collaborators, in program order. -/
inductive Event (F : Type)
  /-- `dnn.backPropagate(error, x, fout, lr)` on a mini-batch. -/
  | backPropagate (epoch : Nat) (batch : Batch) (lr : F)
  /-- `cnn.backPropagate(error, data.x, fmiddle, lr)` on a mini-batch. -/
  | cnnBackPropagate (epoch : Nat) (batch : Batch) (lr : F)
  /-- `dnn.setDropout(flag)`. -/
  | setDropout (flag : Bool)
  /-- `cout << "."`, the progress marker of the `trainAcc < 0` path. -/
  | progressDot
  /-- The `printf` that reports an epoch. -/
  | report (epoch : Nat)
  /-- `dnn.adjustLearningRate(trainAcc)`. -/
  | adjustLearningRate (trainAcc : F)
  /-- `save_model(cnn, dnn, fn)`: the sections written to file `fn`, in order. -/
  | saveModel (fn : String) (sections : List Stage)
deriving DecidableEq, Repr

/-- What the network predicts in each epoch, as far as the loops observe it:
`trainWrong e k` says that sample `k` of the training set is misclassified by the
prediction pass of epoch `e`, `validWrong e k` the same for the validation set. -/
structure Oracle where
  trainWrong : Nat → Nat → Bool
  validWrong : Nat → Nat → Bool

/-- Modelled from the spec: `zeroOneError(prob, label, errorMeasure)` of the error
module, which is not among the sources: the number of samples of the batch whose
predicted class differs from the label. -/
def zeroOneError (wrong : Nat → Bool) (b : Batch) : Nat :=
  ((List.range b.nData).filter fun k => wrong (b.offset + k)).length

/-- The function `dnn_predict` (dnn-train.cpp, lines 200-211): the sum of
`zeroOneError` over the batches of 2048 samples of a data set of `size` samples. -/
def dnn_predict (wrong : Nat → Bool) (size : Nat) : Nat :=
  ((Batches 2048 size).map (zeroOneError wrong)).sum

/-- The function `cnn_predict` (cnn-train.cpp, lines 236-250): the same sum, the
prediction going through both stages. -/
def cnn_predict (wrong : Nat → Bool) (size : Nat) : Nat :=
  ((Batches 2048 size).map (zeroOneError wrong)).sum

/-- How one pass through a loop body ends. -/
inductive Flow
  /-- The `break` statement was executed. -/
  | breakLoop
  /-- The body ended (or executed `continue`); `++epoch` follows. -/
  | nextEpoch
deriving DecidableEq, Repr

/-- Result of running a loop with a bound on the number of iterations. -/
inductive Run (α : Type)
  /-- The loop was left in the given state. -/
  | finished (a : α)
  /-- A read outside a vector occurred: the behaviour is undefined. -/
  | undefinedRead
  /-- The iteration bound was used up before the loop was left. -/
  | outOfFuel
deriving DecidableEq, Repr

/-! ## `dnn_train` (dnn-train.cpp, lines 120-198) -/

/-- The arguments of a training run that come from the data sets and the
command line. -/
structure TrainArgs where
  batchSize : Nat
  /-- The value of `train.size()`. -/
  nTrain : Nat
  /-- The value of `valid.size()`. -/
  nValid : Nat

/-- The value `dnn_predict(dnn, train, errorMeasure)` of epoch `e`. -/
def Oracle.Ein (env : Oracle) (args : TrainArgs) (e : Nat) : Nat :=
  dnn_predict (env.trainWrong e) args.nTrain

/-- The value `dnn_predict(dnn, valid, errorMeasure)` of epoch `e`. -/
def Oracle.Eout (env : Oracle) (args : TrainArgs) (e : Nat) : Nat :=
  dnn_predict (env.validWrong e) args.nValid

/-- The variables of `dnn_train` that live across epochs, and the log. -/
structure DnnState (F : Type) where
  epoch : Nat
  Ein : Nat
  Eout : List Nat
  log : List (Event F)

/-- State on entry to the loop of `dnn_train`: `Ein = 1`, `epoch = 0`, `Eout` empty. -/
def dnnInit (F : Type) : DnnState F := ⟨0, 1, [], []⟩

/-- The accuracy `1.0f - (float) err / n`. -/
def accuracy {F : Type} (ops : FloatOps F) (err n : Nat) : F :=
  ops.sub ops.one (ops.div (ops.ofSizeT err) (ops.ofSizeT n))

/-- The rate `lr` computed once before the loop of `dnn_train`:
`dnn.getConfig().learningRate / batchSize`. -/
def dnnLearningRate {F : Type} (ops : FloatOps F) (cfg : Config F) (args : TrainArgs) : F :=
  ops.div cfg.learningRate (ops.ofSizeT args.batchSize)

/-- The loop over the mini-batches of one epoch of `dnn_train` (lines 152-163):
every batch is fed forward and back-propagated with the rate `lr`. -/
def dnnBatchLoop {F : Type} (ops : FloatOps F) (cfg : Config F) (args : TrainArgs)
    (epoch : Nat) : List (Event F) :=
  (Batches args.batchSize args.nTrain).map
    fun b => Event.backPropagate epoch b (dnnLearningRate ops cfg args)

/-- One pass through the body of the epoch loop of `dnn_train` (lines 149-187),
from state `s` at the head of the loop.  `none`: a vector was read out of range. -/
def dnnEpoch {F : Type} (ops : FloatOps F) (cfg : Config F) (args : TrainArgs)
    (env : Oracle) (s : DnnState F) : Option (Flow × DnnState F) :=
  let trained := s.log ++ dnnBatchLoop ops cfg args s.epoch
  let Ein := env.Ein args s.epoch
  let Eout := s.Eout ++ [env.Eout args s.epoch]
  let evaluated := trained ++ [Event.setDropout false, Event.setDropout true]
  let trainAcc := accuracy ops Ein args.nTrain
  if ops.lt trainAcc ops.zero then
    some (Flow.nextEpoch, ⟨s.epoch, Ein, Eout, evaluated ++ [Event.progressDot]⟩)
  else
    match Eout[s.epoch]? with
    | none => none
    | some cur =>
      let validAcc := accuracy ops cur args.nValid
      let reported := evaluated ++ [Event.report s.epoch]
      let adjusted : DnnState F :=
        ⟨s.epoch, Ein, Eout, reported ++ [Event.adjustLearningRate trainAcc]⟩
      if ops.lt cfg.minValidAccuracy validAcc then
        match isEoutStopDecrease Eout s.epoch cfg.nNonIncEpoch with
        | none => none
        | some true => some (Flow.breakLoop, ⟨s.epoch, Ein, Eout, reported⟩)
        | some false => some (Flow.nextEpoch, adjusted)
      else
        some (Flow.nextEpoch, adjusted)

/-- The loop `for (epoch = 0; epoch < MAX_EPOCH; ++epoch)` of `dnn_train`, run
for at most `fuel` iterations from state `s` at the head of the loop. -/
def dnnLoop {F : Type} (ops : FloatOps F) (cfg : Config F) (args : TrainArgs)
    (env : Oracle) : Nat → DnnState F → Run (DnnState F)
  | 0, s => if s.epoch < cfg.maxEpoch then Run.outOfFuel else Run.finished s
  | fuel + 1, s =>
    if s.epoch < cfg.maxEpoch then
      match dnnEpoch ops cfg args env s with
      | none => Run.undefinedRead
      | some (Flow.breakLoop, s') => Run.finished s'
      | some (Flow.nextEpoch, s') => dnnLoop ops cfg args env fuel { s' with epoch := s'.epoch + 1 }
    else Run.finished s

/-- What the summary at the end of `dnn_train` prints. -/
structure DnnSummary (F : Type) where
  /-- The value of `epoch` after the loop. -/
  epochs : Nat
  Ein : Nat
  /-- The value of `Eout.back()`. -/
  EoutBack : Nat
  Eout : List Nat
  log : List (Event F)

/-- The function `dnn_train`: the epoch loop, then the summary, which reads
`Eout.back()` (undefined on an empty vector). -/
def dnn_train {F : Type} (ops : FloatOps F) (cfg : Config F) (args : TrainArgs)
    (env : Oracle) : Run (DnnSummary F) :=
  match dnnLoop ops cfg args env cfg.maxEpoch (dnnInit F) with
  | Run.finished s =>
    match s.Eout.getLast? with
    | some back => Run.finished ⟨s.epoch, s.Ein, back, s.Eout, s.log⟩
    | none => Run.undefinedRead
  | Run.undefinedRead => Run.undefinedRead
  | Run.outOfFuel => Run.outOfFuel

/-! ## `cnn_train` and `save_model` (cnn-train.cpp, lines 157-212) -/

/-- The constant `MAX_EPOCH` of `cnn_train`. -/
def MAX_EPOCH : Nat := 1024

/-- The call `save_model(cnn, dnn, fn)`: `fout << cnn << dnn` into file `fn`. -/
def save_model {F : Type} (fn : String) : Event F :=
  Event.saveModel fn [Stage.cnn, Stage.dnn]

/-- The variables of `cnn_train` that live across epochs, and the log. -/
structure CnnState (F : Type) where
  epoch : Nat
  log : List (Event F)

/-- The loop over the mini-batches of one epoch of `cnn_train` (lines 182-193): the
dense stage is back-propagated with `config.learningRate / itr->nData`, the
convolutional stage with `config.learningRate`. -/
def cnnBatchLoop {F : Type} (ops : FloatOps F) (cfg : Config F) (args : TrainArgs)
    (epoch : Nat) : List (Event F) :=
  (Batches args.batchSize args.nTrain).flatMap fun b =>
    [Event.backPropagate epoch b (ops.div cfg.learningRate (ops.ofSizeT b.nData)),
     Event.cnnBackPropagate epoch b cfg.learningRate]

/-- One pass through the body of the epoch loop of `cnn_train` (lines 182-207).
`Ein` and `trainAcc` are computed for the report only and are not kept; `Eout` is
`cnn_predict(dnn, cnn, valid, errorMeasure)`. -/
def cnnEpoch {F : Type} (ops : FloatOps F) (cfg : Config F) (args : TrainArgs)
    (env : Oracle) (model_out : String) (s : CnnState F) : Flow × CnnState F :=
  let trained := s.log ++ cnnBatchLoop ops cfg args s.epoch
  let Eout := cnn_predict (env.validWrong s.epoch) args.nValid
  let validAcc := accuracy ops Eout args.nValid
  let reported := trained ++ [Event.report s.epoch]
  if ops.lt cfg.minValidAccuracy validAcc then
    (Flow.breakLoop, ⟨s.epoch, reported⟩)
  else
    (Flow.nextEpoch, ⟨s.epoch, reported ++ [save_model (model_out ++ "." ++ toString s.epoch)]⟩)

/-- The loop `for (size_t epoch = 0; epoch < config.maxEpoch; ++epoch)` of
`cnn_train`, run for at most `fuel` iterations from state `s`. -/
def cnnLoop {F : Type} (ops : FloatOps F) (cfg : Config F) (args : TrainArgs)
    (env : Oracle) (model_out : String) : Nat → CnnState F → Run (CnnState F)
  | 0, s => if s.epoch < cfg.maxEpoch then Run.outOfFuel else Run.finished s
  | fuel + 1, s =>
    if s.epoch < cfg.maxEpoch then
      match cnnEpoch ops cfg args env model_out s with
      | (Flow.breakLoop, s') => Run.finished s'
      | (Flow.nextEpoch, s') =>
        cnnLoop ops cfg args env model_out fuel { s' with epoch := s'.epoch + 1 }
    else Run.finished s

/-- The configuration after `config.maxEpoch = std::min(config.maxEpoch, MAX_EPOCH)`. -/
def capEpoch {F : Type} (cfg : Config F) : Config F :=
  { cfg with maxEpoch := min cfg.maxEpoch MAX_EPOCH }

/-- The function `cnn_train`: cap the epoch ceiling, then run the epoch loop. -/
def cnn_train {F : Type} (ops : FloatOps F) (cfg : Config F) (args : TrainArgs)
    (env : Oracle) (model_out : String) : Run (CnnState F) :=
  cnnLoop ops (capEpoch cfg) args env model_out (capEpoch cfg).maxEpoch ⟨0, []⟩

/-- Lines 150-152 of `main`: `cnn_train(…, model_out, …)` followed by
`save_model(cnn, dnn, model_out)`; the result is the log of the whole run. -/
def cnnMain {F : Type} (ops : FloatOps F) (cfg : Config F) (args : TrainArgs)
    (env : Oracle) (model_out : String) : Run (List (Event F)) :=
  match cnn_train ops cfg args env model_out with
  | Run.finished s => Run.finished (s.log ++ [save_model model_out])
  | Run.undefinedRead => Run.undefinedRead
  | Run.outOfFuel => Run.outOfFuel

/-! ## The early-stopping predicate as the specification words it -/

/-- The predicate `isStop(epoch)` in the words of the specification: `Eout[epoch] ≤
Eout[epoch - i]` for every `i` in `1..nNonIncEpoch` with `epoch - i ≥ 0`. -/
def isStopSpec (Eout : List Nat) (epoch nNonIncEpoch : Nat) : Prop :=
  ∀ i, 1 ≤ i → i ≤ nNonIncEpoch → i ≤ epoch → Eout.getD epoch 0 ≤ Eout.getD (epoch - i) 0

/-! ## `getRandWeights` (cnn-train.cpp, lines 214-234) -/

/-- Modelled from the spec: the tensor type `mat` of the matrix library, which is not
among the sources.  Only the shape of a tensor is kept: the entries produced by
`getRandWeights` are random. -/
structure Mat where
  rows : Nat
  cols : Nat
deriving DecidableEq, Repr

/-- Modelled from the spec: `rand(rows, cols)`, a `rows × cols` tensor of random
entries; scaling by `coeff` and subtracting `0.5` keep its shape. -/
def rand (rows cols : Nat) : Mat := ⟨rows, cols⟩

/-- The statement `dims[i] += 1` on a `size_t`. -/
def incrSizeT (d : Nat) : Nat := (d + 1) % SIZE_MOD

/-- The vector `dims` of `getRandWeights` once every entry has been incremented.
`hidden` is the decoded structure string, `splitAsInt(structure, '-')`. -/
def getRandWeightsDims (input_dim : Nat) (hidden : List Nat) (output_dim : Nat) : List Nat :=
  let dims := hidden ++ [output_dim]
  let dims := input_dim :: dims
  dims.map incrSizeT

/-- The loop `for (size_t i = 0; i < nWeights; ++i)` of `getRandWeights`, entered
with counter `i` and `remaining = nWeights - i` iterations to go: `weights[i]` is
a tensor of shape `dims[i] × dims[i+1]`.  `none`: `dims` was read out of range. -/
def getRandWeightsLoop (dims : List Nat) : Nat → Nat → Option (List Mat)
  | 0, _ => some []
  | remaining + 1, i =>
    match dims[i]?, dims[i + 1]? with
    | some r, some c => (getRandWeightsLoop dims remaining (i + 1)).map (rand r c :: ·)
    | _, _ => none

/-- The function `getRandWeights`: `nWeights = dims.size() - 1` tensors (`dims` holds
at least two entries, so this subtraction does not wrap). -/
def getRandWeights (input_dim : Nat) (hidden : List Nat) (output_dim : Nat) :
    Option (List Mat) :=
  let dims := getRandWeightsDims input_dim hidden output_dim
  getRandWeightsLoop dims (dims.length - 1) 0

/-! ## Projections of the log and reachable states -/

/-- The arguments of the `adjustLearningRate` calls in a log, in order. -/
def adjustCalls {F : Type} (log : List (Event F)) : List F :=
  log.filterMap fun ev =>
    match ev with
    | Event.adjustLearningRate a => some a
    | _ => none

/-- The dense-stage `backPropagate` calls in a log: epoch, batch and rate passed. -/
def denseRates {F : Type} (log : List (Event F)) : List (Nat × Batch × F) :=
  log.filterMap fun ev =>
    match ev with
    | Event.backPropagate e b lr => some (e, b, lr)
    | _ => none

/-- The files written in a log, in order, each with the sections written to it. -/
def savedFiles {F : Type} (log : List (Event F)) : List (String × List Stage) :=
  log.filterMap fun ev =>
    match ev with
    | Event.saveModel fn secs => some (fn, secs)
    | _ => none

/-- The epochs reported in a log, in order: one report per epoch whose evaluation
pass reached the `printf`. -/
def reportedEpochs {F : Type} (log : List (Event F)) : List Nat :=
  log.filterMap fun ev =>
    match ev with
    | Event.report e => some e
    | _ => none

/-- The epoch an event belongs to, for the events that carry one. -/
def epochOf {F : Type} : Event F → Option Nat
  | Event.backPropagate e _ _ => some e
  | Event.cnnBackPropagate e _ _ => some e
  | Event.report e => some e
  | _ => none

/-- The training accuracy `trainAcc` computed in epoch `e`. -/
def trainAccAt {F : Type} (ops : FloatOps F) (args : TrainArgs) (env : Oracle) (e : Nat) : F :=
  accuracy ops (env.Ein args e) args.nTrain

/-- The validation accuracy `validAcc = 1 - Eout[e] / nValid` of epoch `e`. -/
def validAccAt {F : Type} (ops : FloatOps F) (args : TrainArgs) (env : Oracle) (e : Nat) : F :=
  accuracy ops (env.Eout args e) args.nValid

/-- The test `validAcc > config.minValidAccuracy` of `cnn_train` in epoch `e`. -/
def cnnGate {F : Type} (ops : FloatOps F) (cfg : Config F) (args : TrainArgs)
    (env : Oracle) (e : Nat) : Bool :=
  ops.lt cfg.minValidAccuracy (validAccAt ops args env e)

/-- The states in which the loop of `dnn_train` can stand at the head of an
iteration: the initial state, and the state after `++epoch` following a pass
through the body that did not `break`. -/
inductive DnnReach {F : Type} (ops : FloatOps F) (cfg : Config F) (args : TrainArgs)
    (env : Oracle) : DnnState F → Prop
  | init : DnnReach ops cfg args env (dnnInit F)
  | next {s s' : DnnState F} :
      DnnReach ops cfg args env s → s.epoch < cfg.maxEpoch →
      dnnEpoch ops cfg args env s = some (Flow.nextEpoch, s') →
      DnnReach ops cfg args env { s' with epoch := s'.epoch + 1 }

/-! ## Concrete runs -/

/-- The run in which the first `errors[e]` samples of the validation set are
misclassified in epoch `e` (none once the list is used up) and no sample of the
training set ever is. -/
def validErrors (errors : List Nat) : Oracle :=
  ⟨fun _ _ => false, fun e k => decide (k < errors.getD e 0)⟩

/-- A configuration with threshold `0.9`, patience window 3 and five epochs. -/
def scenarioCfg : Config ℚ := ⟨1 / 10, 9 / 10, 5, 3⟩

/-- Batches of 32 over 100 training samples; 450 validation samples. -/
def scenarioArgs : TrainArgs := ⟨32, 100, 450⟩

/-- Validation errors `50, 40, 42, 41, 41` in epochs 0-4. -/
def scenarioEnv : Oracle := validErrors [50, 40, 42, 41, 41]

/-- Batches of 2 over 3 training samples; 10 validation samples. -/
def smallArgs : TrainArgs := ⟨2, 3, 10⟩

/-- Threshold `0.5`, ten epochs, patience window 1. -/
def smallCfg : Config ℚ := ⟨1 / 10, 1 / 2, 10, 1⟩

/-- A run whose validation error falls from 9 to 7 to 0 (and stays there). -/
def improvingEnv : Oracle := validErrors [9, 7]

theorem subSizeT_of_le {a b : Nat} (hb : b ≤ a) (ha : a < SIZE_MOD) : subSizeT a b = a - b := by
  unfold subSizeT SIZE_MOD at *
  have hb' : b % 2 ^ 64 = b := Nat.mod_eq_of_lt (by omega)
  rw [hb']
  omega

theorem isEoutStopDecreaseLoop_result (Eout : List Nat) (epoch : Nat)
    (hSize : epoch < SIZE_MOD) (hIdx : epoch < Eout.length) :
    ∀ (remaining i : Nat) (reads : List Nat), i + remaining ≤ epoch + 1 →
      ∃ b, (isEoutStopDecreaseLoop Eout epoch remaining i reads).result = some b ∧
        (b = true ↔ ∀ k, i ≤ k → k < i + remaining → 0 < epoch - k →
          Eout.getD epoch 0 ≤ Eout.getD (epoch - k) 0) := by
  intro remaining
  induction remaining with
  | zero =>
    intro i reads _
    refine ⟨true, rfl, ?_⟩
    simp only [true_iff]
    intro k h1 h2
    omega
  | succ r ih =>
    intro i reads hle
    have hi : i ≤ epoch := by omega
    have hsub : subSizeT epoch i = epoch - i := subSizeT_of_le hi hSize
    have hcur : Eout[epoch]? = some (Eout.getD epoch 0) := by
      simp [List.getD, List.getElem?_eq_getElem hIdx]
    have hlt : epoch - i < Eout.length := by omega
    have hold : Eout[epoch - i]? = some (Eout.getD (epoch - i) 0) := by
      simp [List.getD, List.getElem?_eq_getElem hlt]
    obtain ⟨b, hb, hiff⟩ := ih (i + 1) (reads ++ [epoch, epoch - i]) (by omega)
    obtain ⟨b', hb', hiff'⟩ := ih (i + 1) reads (by omega)
    unfold isEoutStopDecreaseLoop
    rw [hsub]
    by_cases hpos : epoch - i > 0
    · simp only [hpos, if_true, hcur, hold]
      by_cases hgt : Eout.getD epoch 0 > Eout.getD (epoch - i) 0
      · simp only [hgt, if_true]
        refine ⟨false, rfl, ?_⟩
        simp only [Bool.false_eq_true, false_iff, not_forall]
        exact ⟨i, le_refl i, by omega, hpos, by omega⟩
      · simp only [hgt, if_false]
        refine ⟨b, hb, ?_⟩
        rw [hiff]
        constructor
        · intro h k h1 h2 h3
          by_cases hk : k = i
          · subst hk; omega
          · exact h k (by omega) (by omega) h3
        · intro h k h1 h2 h3
          exact h k (by omega) (by omega) h3
    · simp only [hpos, if_false]
      refine ⟨b', hb', ?_⟩
      rw [hiff']
      constructor
      · intro h k h1 h2 h3
        by_cases hk : k = i
        · subst hk; omega
        · exact h k (by omega) (by omega) h3
      · intro h k h1 h2 h3
        exact h k (by omega) (by omega) h3

/-- C1, as the specification states it, fails.  On the error sequence
`[50, 40, 42, 41, 41]` at epoch 4 with `nNonIncEpoch = 3` the code returns `true`,
while the stated predicate is false (for `i = 3`, `Eout[1] = 40 < 41 = Eout[4]`):
the code compares with the `nNonIncEpoch - 1` entries before `epoch`.  On `[1, 2]`
at epoch 1 with `nNonIncEpoch = 2` the code returns `true` although
`Eout[0] = 1 < 2 = Eout[1]`: the guard `epoch - i > 0` leaves entry 0 out.  On
`[5]` at epoch 0 with `nNonIncEpoch = 2` the stated predicate holds and the code
has no defined result. -/
theorem isEoutStopDecrease_spec_window_fails :
    (isEoutStopDecrease [50, 40, 42, 41, 41] 4 3 = some true ∧
      ¬ isStopSpec [50, 40, 42, 41, 41] 4 3) ∧
    (isEoutStopDecrease [1, 2] 1 2 = some true ∧ ¬ isStopSpec [1, 2] 1 2) ∧
    (isEoutStopDecrease [5] 0 2 = none ∧ isStopSpec [5] 0 2) := by
  refine ⟨⟨by decide, ?_⟩, ⟨by decide, ?_⟩, by decide, ?_⟩
  · intro h
    have := h 3 (by decide) (by decide) (by decide)
    revert this
    decide
  · intro h
    have := h 1 (by decide) (by decide) (by decide)
    revert this
    decide
  · intro i h1 _ h3
    omega

/-- C1 (amended): for every error sequence `Eout`, every valid index `epoch` and
every `nNonIncEpoch ≤ epoch + 1`, `isEoutStopDecrease` returns `true` if and only
if `Eout[epoch] ≤ Eout[epoch - i]` for every `i` in `1..nNonIncEpoch - 1` with
`epoch - i > 0`, and returns `false` exactly when some such earlier entry is
smaller than `Eout[epoch]`. -/
theorem isEoutStopDecrease_window (Eout : List Nat) (epoch nNonIncEpoch : Nat)
    (hSize : epoch < SIZE_MOD) (hIdx : epoch < Eout.length)
    (hWin : nNonIncEpoch ≤ epoch + 1) :
    (isEoutStopDecrease Eout epoch nNonIncEpoch = some true ↔
        ∀ i, 1 ≤ i → i < nNonIncEpoch → 0 < epoch - i →
          Eout.getD epoch 0 ≤ Eout.getD (epoch - i) 0) ∧
    (isEoutStopDecrease Eout epoch nNonIncEpoch = some false ↔
        ∃ i, 1 ≤ i ∧ i < nNonIncEpoch ∧ 0 < epoch - i ∧
          Eout.getD (epoch - i) 0 < Eout.getD epoch 0) := by
  obtain ⟨b, hb, hiff⟩ :=
    isEoutStopDecreaseLoop_result Eout epoch hSize hIdx nNonIncEpoch 0 [] (by omega)
  have hres : isEoutStopDecrease Eout epoch nNonIncEpoch = some b := hb
  have hall : (∀ k, 0 ≤ k → k < 0 + nNonIncEpoch → 0 < epoch - k →
        Eout.getD epoch 0 ≤ Eout.getD (epoch - k) 0) ↔
      ∀ i, 1 ≤ i → i < nNonIncEpoch → 0 < epoch - i →
        Eout.getD epoch 0 ≤ Eout.getD (epoch - i) 0 := by
    constructor
    · intro h i _ h2 h3
      exact h i (Nat.zero_le i) (by omega) h3
    · intro h k _ h2 h3
      by_cases hk : k = 0
      · subst hk; simp
      · exact h k (by omega) (by omega) h3
  rw [hall] at hiff
  rw [hres]
  constructor
  · rw [← hiff]; simp
  · cases b with
    | true =>
      simp only [Option.some.injEq, Bool.true_eq_false, false_iff, not_exists, not_and, not_lt]
      intro i h1 h2 h3
      exact hiff.mp rfl i h1 h2 h3
    | false =>
      simp only [true_iff]
      by_contra hne
      have : (false = true) := hiff.mpr (by
        intro i h1 h2 h3
        by_contra hc
        exact hne ⟨i, h1, h2, h3, by omega⟩)
      exact Bool.false_ne_true this

/-- Witness for C1 (amended): the sequence `[50, 40, 42, 41]` at epoch 3 with window 3. -/
theorem isEoutStopDecrease_window_witness :
    isEoutStopDecrease [50, 40, 42, 41] 3 3 = some false ↔
      ∃ i, 1 ≤ i ∧ i < 3 ∧ 0 < 3 - i ∧
        [50, 40, 42, 41].getD (3 - i) 0 < [50, 40, 42, 41].getD 3 0 :=
  (isEoutStopDecrease_window [50, 40, 42, 41] 3 3 (by decide) (by decide) (by decide)).2

/-- C9 fails on the code: with `Eout = [5]`, `epoch = 0` and `nNonIncEpoch = 2` the
second iteration computes `epoch - i = 0 - 1 = 2 ^ 64 - 1 > 0` and reads
`Eout[2 ^ 64 - 1]`, an index outside `[0, epoch]` and outside the vector. -/
theorem isEoutStopDecrease_reads_out_of_range :
    isEoutStopDecreaseTrace [5] 0 2 = ⟨[0, 2 ^ 64 - 1], none⟩ ∧
      isEoutStopDecrease [5] 0 2 = none := by
  decide

/-! ## Properties of the prediction passes -/

theorem zeroOneError_le (wrong : Nat → Bool) (b : Batch) : zeroOneError wrong b ≤ b.nData := by
  unfold zeroOneError
  exact (List.length_filter_le _ _).trans (by simp)

theorem Batches_nData_sum (batchSize N : Nat) : ∀ K : Nat,
    ((List.range K).map fun k => min batchSize (N - k * batchSize)).sum =
      min (K * batchSize) N := by
  intro K
  induction K with
  | zero => simp
  | succ K ih =>
    rw [List.range_succ, List.map_append, List.sum_append, ih, Nat.succ_mul]
    simp only [List.map_singleton, List.sum_singleton]
    omega

/-- A prediction pass counts at most as many errors as the data set has samples. -/
theorem dnn_predict_le (wrong : Nat → Bool) (size : Nat) : dnn_predict wrong size ≤ size := by
  unfold dnn_predict
  have h1 : ((Batches 2048 size).map (zeroOneError wrong)).sum ≤
      ((Batches 2048 size).map Batch.nData).sum :=
    List.sum_le_sum fun b _ => zeroOneError_le wrong b
  have h2 : ((Batches 2048 size).map Batch.nData).sum ≤ size := by
    unfold Batches
    rw [List.map_map]
    have := Batches_nData_sum 2048 size ((size + 2048 - 1) / 2048)
    simp only [Function.comp_def]
    rw [this]
    exact Nat.min_le_right _ _
  exact h1.trans h2

/-- In exact rational arithmetic the training accuracy is never negative: the
`trainAcc < 0` path of `dnn_train` is not taken. -/
theorem ratOps_trainAcc_nonneg (args : TrainArgs) (env : Oracle) (e : Nat) :
    ratOps.lt (trainAccAt ratOps args env e) ratOps.zero = false := by
  have hle : env.Ein args e ≤ args.nTrain := dnn_predict_le _ _
  simp only [ratOps, trainAccAt, accuracy, decide_eq_false_iff_not, not_lt]
  have h1 : ((env.Ein args e : Nat) : ℚ) ≤ (args.nTrain : ℚ) := by exact_mod_cast hle
  have h2 : ((env.Ein args e : Nat) : ℚ) / (args.nTrain : ℚ) ≤ 1 :=
    div_le_one_of_le₀ h1 (by positivity)
  linarith

/-! ## Properties of `dnn_train` -/

section dnn

variable {F : Type} (ops : FloatOps F) (cfg : Config F) (args : TrainArgs) (env : Oracle)

theorem adjustCalls_append (a b : List (Event F)) :
    adjustCalls (a ++ b) = adjustCalls a ++ adjustCalls b := by
  simp [adjustCalls, List.filterMap_append]

theorem adjustCalls_dnnBatchLoop (e : Nat) :
    adjustCalls (dnnBatchLoop ops cfg args e) = [] := by
  simp [adjustCalls, dnnBatchLoop]

theorem getElem?_append_length (l : List Nat) (x : Nat) (n : Nat) (h : l.length = n) :
    (l ++ [x])[n]? = some x := by
  subst h
  simp

/-- What the body of the loop of `dnn_train` does, case by case. -/
theorem dnnEpoch_cases (s : DnnState F) (hInv : s.Eout.length = s.epoch) :
    ∃ pre : List (Event F), adjustCalls pre = [] ∧
    ((ops.lt (trainAccAt ops args env s.epoch) ops.zero = true ∧
        dnnEpoch ops cfg args env s = some (Flow.nextEpoch,
          ⟨s.epoch, env.Ein args s.epoch, s.Eout ++ [env.Eout args s.epoch],
            s.log ++ pre ++ [Event.progressDot]⟩)) ∨
     (ops.lt (trainAccAt ops args env s.epoch) ops.zero = false ∧
        ops.lt cfg.minValidAccuracy (validAccAt ops args env s.epoch) = false ∧
        dnnEpoch ops cfg args env s = some (Flow.nextEpoch,
          ⟨s.epoch, env.Ein args s.epoch, s.Eout ++ [env.Eout args s.epoch],
            s.log ++ pre ++ [Event.report s.epoch,
              Event.adjustLearningRate (trainAccAt ops args env s.epoch)]⟩)) ∨
     (ops.lt (trainAccAt ops args env s.epoch) ops.zero = false ∧
        ops.lt cfg.minValidAccuracy (validAccAt ops args env s.epoch) = true ∧
        isEoutStopDecrease (s.Eout ++ [env.Eout args s.epoch]) s.epoch cfg.nNonIncEpoch = some false ∧
        dnnEpoch ops cfg args env s = some (Flow.nextEpoch,
          ⟨s.epoch, env.Ein args s.epoch, s.Eout ++ [env.Eout args s.epoch],
            s.log ++ pre ++ [Event.report s.epoch,
              Event.adjustLearningRate (trainAccAt ops args env s.epoch)]⟩)) ∨
     (ops.lt (trainAccAt ops args env s.epoch) ops.zero = false ∧
        ops.lt cfg.minValidAccuracy (validAccAt ops args env s.epoch) = true ∧
        isEoutStopDecrease (s.Eout ++ [env.Eout args s.epoch]) s.epoch cfg.nNonIncEpoch = some true ∧
        dnnEpoch ops cfg args env s = some (Flow.breakLoop,
          ⟨s.epoch, env.Ein args s.epoch, s.Eout ++ [env.Eout args s.epoch],
            s.log ++ pre ++ [Event.report s.epoch]⟩)) ∨
     (ops.lt (trainAccAt ops args env s.epoch) ops.zero = false ∧
        ops.lt cfg.minValidAccuracy (validAccAt ops args env s.epoch) = true ∧
        isEoutStopDecrease (s.Eout ++ [env.Eout args s.epoch]) s.epoch cfg.nNonIncEpoch = none ∧
        dnnEpoch ops cfg args env s = none)) := by
  refine ⟨dnnBatchLoop ops cfg args s.epoch ++
        [Event.setDropout false, Event.setDropout true], ?_, ?_⟩
  · rw [adjustCalls_append, adjustCalls_dnnBatchLoop]; rfl
  · have hread := getElem?_append_length s.Eout (env.Eout args s.epoch) s.epoch hInv
    unfold dnnEpoch
    simp only [hread, trainAccAt, validAccAt, List.append_assoc]
    cases h1 : ops.lt (accuracy ops (env.Ein args s.epoch) args.nTrain) ops.zero
    · cases h2 : ops.lt cfg.minValidAccuracy (accuracy ops (env.Eout args s.epoch) args.nValid)
      · simp
      · cases h3 : isEoutStopDecrease (s.Eout ++ [env.Eout args s.epoch]) s.epoch cfg.nNonIncEpoch with
        | none => simp
        | some b => cases b <;> simp
    · simp

theorem dnnLoop_break (fuel : Nat) (s s' : DnnState F) (hlt : s.epoch < cfg.maxEpoch)
    (h : dnnEpoch ops cfg args env s = some (Flow.breakLoop, s')) :
    dnnLoop ops cfg args env (fuel + 1) s = Run.finished s' := by
  simp [dnnLoop, hlt, h]

theorem dnnLoop_next (fuel : Nat) (s s' : DnnState F) (hlt : s.epoch < cfg.maxEpoch)
    (h : dnnEpoch ops cfg args env s = some (Flow.nextEpoch, s')) :
    dnnLoop ops cfg args env (fuel + 1) s =
      dnnLoop ops cfg args env fuel { s' with epoch := s'.epoch + 1 } := by
  simp [dnnLoop, hlt, h]

/-- Whatever way a pass through the body ends, it leaves `epoch` alone and
appends the validation error of the epoch to `Eout`. -/
theorem dnnEpoch_Eout (s : DnnState F) (flow : Flow) (s' : DnnState F)
    (h : dnnEpoch ops cfg args env s = some (flow, s')) :
    s'.epoch = s.epoch ∧ s'.Eout = s.Eout ++ [env.Eout args s.epoch] := by
  unfold dnnEpoch at h
  simp only at h
  split at h
  · simp only [Option.some.injEq, Prod.mk.injEq] at h
    rw [← h.2]; exact ⟨rfl, rfl⟩
  · split at h
    · exact absurd h (by simp)
    · split at h
      · split at h
        · exact absurd h (by simp)
        · simp only [Option.some.injEq, Prod.mk.injEq] at h
          rw [← h.2]; exact ⟨rfl, rfl⟩
        · simp only [Option.some.injEq, Prod.mk.injEq] at h
          rw [← h.2]; exact ⟨rfl, rfl⟩
      · simp only [Option.some.injEq, Prod.mk.injEq] at h
        rw [← h.2]; exact ⟨rfl, rfl⟩

theorem dnnReach_length (s : DnnState F) (h : DnnReach ops cfg args env s) :
    s.Eout.length = s.epoch := by
  induction h with
  | init => rfl
  | next _ _ hstep ih =>
    obtain ⟨he, hE⟩ := dnnEpoch_Eout ops cfg args env _ _ _ hstep
    simp [hE, he, ih]

/-- The loop of `dnn_train` never leaves `Eout` shorter than it found it, and one
entry longer when it runs at least one epoch. -/
theorem dnnLoop_Eout_length : ∀ (fuel : Nat) (s f : DnnState F),
    dnnLoop ops cfg args env fuel s = Run.finished f →
      s.Eout.length ≤ f.Eout.length ∧
        (s.epoch < cfg.maxEpoch → s.Eout.length < f.Eout.length) := by
  intro fuel
  induction fuel with
  | zero =>
    intro s f h
    unfold dnnLoop at h
    split at h
    · exact absurd h (by simp)
    · rename_i hge
      simp only [Run.finished.injEq] at h
      subst h
      exact ⟨le_refl _, fun hlt => absurd hlt hge⟩
  | succ n ih =>
    intro s f h
    by_cases hlt : s.epoch < cfg.maxEpoch
    · cases hstep : dnnEpoch ops cfg args env s with
      | none => simp [dnnLoop, hlt, hstep] at h
      | some r =>
        obtain ⟨flow, s'⟩ := r
        obtain ⟨_, hE⟩ := dnnEpoch_Eout ops cfg args env s flow s' hstep
        cases flow with
        | breakLoop =>
          rw [dnnLoop_break ops cfg args env n s s' hlt hstep] at h
          simp only [Run.finished.injEq] at h
          subst h
          simp [hE]
        | nextEpoch =>
          rw [dnnLoop_next ops cfg args env n s s' hlt hstep] at h
          have := (ih _ f h).1
          simp only [hE, List.length_append, List.length_singleton] at this
          exact ⟨by omega, fun _ => by omega⟩
    · simp only [dnnLoop, hlt, if_false, Run.finished.injEq] at h
      subst h
      exact ⟨le_refl _, fun h' => absurd h' hlt⟩

/-- The bound `MAX_EPOCH - epoch` on the number of iterations is enough: the loop
of `dnn_train` never stops for want of fuel. -/
theorem dnnLoop_fuel_enough : ∀ (fuel : Nat) (s : DnnState F),
    cfg.maxEpoch ≤ s.epoch + fuel → dnnLoop ops cfg args env fuel s ≠ Run.outOfFuel := by
  intro fuel
  induction fuel with
  | zero =>
    intro s hle
    have : ¬ s.epoch < cfg.maxEpoch := by omega
    simp [dnnLoop, this]
  | succ n ih =>
    intro s hle
    by_cases hlt : s.epoch < cfg.maxEpoch
    · cases hstep : dnnEpoch ops cfg args env s with
      | none => simp [dnnLoop, hlt, hstep]
      | some r =>
        obtain ⟨flow, s'⟩ := r
        obtain ⟨he, _⟩ := dnnEpoch_Eout ops cfg args env s flow s' hstep
        cases flow with
        | breakLoop => rw [dnnLoop_break ops cfg args env n s s' hlt hstep]; simp
        | nextEpoch =>
          rw [dnnLoop_next ops cfg args env n s s' hlt hstep]
          exact ih _ (by simp only [he]; omega)
    · simp [dnnLoop, hlt]

/-- C10: in `dnn_train`, at the head of the loop in epoch `e` the accumulator `Eout`
holds exactly `e` entries; a pass through the body, the `trainAcc < 0` path
included, appends exactly one entry and keeps the earlier ones, so that the read
`Eout[epoch]` is in range; and for `maxEpoch > 0` the vector is not empty when the
summary reads `Eout.back()`. -/
theorem dnn_Eout_append_only (s : DnnState F) (hReach : DnnReach ops cfg args env s) :
    s.Eout.length = s.epoch ∧
    (∀ flow s', dnnEpoch ops cfg args env s = some (flow, s') →
        s'.Eout = s.Eout ++ [env.Eout args s.epoch] ∧
        s'.Eout.length = s.epoch + 1 ∧
        s'.Eout[s.epoch]? = some (env.Eout args s.epoch)) ∧
    (ops.lt (trainAccAt ops args env s.epoch) ops.zero = true →
        ∃ s', dnnEpoch ops cfg args env s = some (Flow.nextEpoch, s') ∧
          s'.Eout = s.Eout ++ [env.Eout args s.epoch]) ∧
    (0 < cfg.maxEpoch → ∀ f,
        dnnLoop ops cfg args env cfg.maxEpoch (dnnInit F) = Run.finished f →
          ∃ back, f.Eout.getLast? = some back) := by
  have hInv := dnnReach_length ops cfg args env s hReach
  refine ⟨hInv, ?_, ?_, ?_⟩
  · intro flow s' h
    obtain ⟨_, hE⟩ := dnnEpoch_Eout ops cfg args env s flow s' h
    refine ⟨hE, by simp [hE, hInv], ?_⟩
    rw [hE]
    exact getElem?_append_length s.Eout _ s.epoch hInv
  · intro hneg
    obtain ⟨pre, _, hc⟩ := dnnEpoch_cases ops cfg args env s hInv
    rcases hc with ⟨_, h⟩ | ⟨h0, _⟩ | ⟨h0, _⟩ | ⟨h0, _⟩ | ⟨h0, _⟩
    · exact ⟨_, h, rfl⟩
    all_goals (rw [hneg] at h0; exact absurd h0 (by simp))
  · intro hpos f hf
    have hlen := (dnnLoop_Eout_length ops cfg args env cfg.maxEpoch (dnnInit F) f hf).2 hpos
    cases hE : f.Eout with
    | nil => simp [hE, dnnInit] at hlen
    | cons a l => exact ⟨(a :: l).getLast (by simp), List.getLast?_eq_getLast _ _⟩

/-- The stop check of `dnn_train` where the body has a defined result.  At an
epoch whose training accuracy is negative the loop goes on to the next epoch
without a stop check and without a call of `adjustLearningRate`.  At an epoch
whose training accuracy is not negative, and where `isEoutStopDecrease` reads
inside `Eout` whenever it is called, the loop terminates at that epoch if and only
if `validAcc > minValidAccuracy` and `isEoutStopDecrease(Eout, epoch,
nNonIncEpoch)` is true; otherwise `adjustLearningRate(trainAcc)` is called once
and the loop goes on to the next epoch. -/
theorem dnn_stop_check (s : DnnState F) (hInv : s.Eout.length = s.epoch) :
    (ops.lt (trainAccAt ops args env s.epoch) ops.zero = true →
      ∃ s', dnnEpoch ops cfg args env s = some (Flow.nextEpoch, s') ∧
        adjustCalls s'.log = adjustCalls s.log) ∧
    (ops.lt (trainAccAt ops args env s.epoch) ops.zero = false →
      (ops.lt cfg.minValidAccuracy (validAccAt ops args env s.epoch) = true →
        isEoutStopDecrease (s.Eout ++ [env.Eout args s.epoch]) s.epoch cfg.nNonIncEpoch ≠ none) →
      ∃ flow s', dnnEpoch ops cfg args env s = some (flow, s') ∧
        (flow = Flow.breakLoop ↔
          (ops.lt cfg.minValidAccuracy (validAccAt ops args env s.epoch) = true ∧
            isEoutStopDecrease (s.Eout ++ [env.Eout args s.epoch]) s.epoch cfg.nNonIncEpoch
              = some true)) ∧
        (flow = Flow.breakLoop → adjustCalls s'.log = adjustCalls s.log ∧
          ∀ fuel, s.epoch < cfg.maxEpoch →
            dnnLoop ops cfg args env (fuel + 1) s = Run.finished s') ∧
        (flow = Flow.nextEpoch →
          adjustCalls s'.log = adjustCalls s.log ++ [trainAccAt ops args env s.epoch] ∧
          ∀ fuel, s.epoch < cfg.maxEpoch →
            dnnLoop ops cfg args env (fuel + 1) s =
              dnnLoop ops cfg args env fuel { s' with epoch := s.epoch + 1 })) := by
  obtain ⟨pre, hpre, hc⟩ := dnnEpoch_cases ops cfg args env s hInv
  constructor
  · intro hneg
    rcases hc with ⟨_, h⟩ | ⟨h0, _⟩ | ⟨h0, _⟩ | ⟨h0, _⟩ | ⟨h0, _⟩
    · refine ⟨_, h, ?_⟩
      simp [adjustCalls_append, hpre]
      rfl
    all_goals (rw [hneg] at h0; exact absurd h0 (by simp))
  · intro hpos hdef
    rcases hc with ⟨h0, _⟩ | ⟨_, hv, h⟩ | ⟨_, hv, hs, h⟩ | ⟨_, hv, hs, h⟩ | ⟨_, hv, hs, _⟩
    · rw [hpos] at h0; exact absurd h0 (by simp)
    · refine ⟨_, _, h, ?_, ?_, ?_⟩
      · simp [hv]
      · intro hf; exact absurd hf (by simp)
      · intro _
        refine ⟨?_, fun fuel hlt => dnnLoop_next ops cfg args env fuel s _ hlt h⟩
        simp [adjustCalls_append, hpre]
        rfl
    · refine ⟨_, _, h, ?_, ?_, ?_⟩
      · simp [hs]
      · intro hf; exact absurd hf (by simp)
      · intro _
        refine ⟨?_, fun fuel hlt => dnnLoop_next ops cfg args env fuel s _ hlt h⟩
        simp [adjustCalls_append, hpre]
        rfl
    · refine ⟨_, _, h, ?_, ?_, ?_⟩
      · simp [hv, hs]
      · intro _
        refine ⟨?_, fun fuel hlt => dnnLoop_break ops cfg args env fuel s _ hlt h⟩
        simp [adjustCalls_append, hpre]
        rfl
      · intro hf; exact absurd hf (by simp)
    · exact absurd hs (hdef hv)

/-- Witness for C10: the head of epoch 1 of a run whose epoch 0 counted 9 validation
errors on 10 samples holds one entry. -/
theorem dnn_Eout_append_only_witness :
    ∃ s : DnnState ℚ, DnnReach ratOps smallCfg smallArgs improvingEnv s ∧
      s.epoch = 1 ∧ s.Eout = [9] ∧ s.Eout.length = s.epoch := by
  have hstep : dnnEpoch ratOps smallCfg smallArgs improvingEnv (dnnInit ℚ) =
      some (Flow.nextEpoch, ⟨0, 0, [9], [Event.backPropagate 0 ⟨0, 2⟩ (1 / 10 / 2),
        Event.backPropagate 0 ⟨2, 1⟩ (1 / 10 / 2), Event.setDropout false,
        Event.setDropout true, Event.report 0,
        Event.adjustLearningRate (trainAccAt ratOps smallArgs improvingEnv 0)]⟩) := by
    with_unfolding_all rfl
  have hreach := DnnReach.next DnnReach.init (by decide) hstep
  exact ⟨_, hreach, rfl, rfl,
    (dnn_Eout_append_only ratOps smallCfg smallArgs improvingEnv _ hreach).1⟩

end dnn

/-! ## Properties of `cnn_train` -/

section cnn

variable {F : Type} (ops : FloatOps F) (cfg : Config F) (args : TrainArgs) (env : Oracle)
  (model_out : String)

theorem savedFiles_append (a b : List (Event F)) :
    savedFiles (a ++ b) = savedFiles a ++ savedFiles b := by
  simp [savedFiles, List.filterMap_append]

theorem reportedEpochs_append (a b : List (Event F)) :
    reportedEpochs (a ++ b) = reportedEpochs a ++ reportedEpochs b := by
  simp [reportedEpochs, List.filterMap_append]

theorem denseRates_append (a b : List (Event F)) :
    denseRates (a ++ b) = denseRates a ++ denseRates b := by
  simp [denseRates, List.filterMap_append]

theorem savedFiles_cnnBatchLoop (e : Nat) : savedFiles (cnnBatchLoop ops cfg args e) = [] := by
  unfold cnnBatchLoop
  induction Batches args.batchSize args.nTrain with
  | nil => rfl
  | cons b bs ih =>
    rw [List.flatMap_cons, savedFiles_append, ih]
    rfl

theorem reportedEpochs_cnnBatchLoop (e : Nat) :
    reportedEpochs (cnnBatchLoop ops cfg args e) = [] := by
  unfold cnnBatchLoop
  induction Batches args.batchSize args.nTrain with
  | nil => rfl
  | cons b bs ih =>
    rw [List.flatMap_cons, reportedEpochs_append, ih]
    rfl

theorem denseRates_cnnBatchLoop (e : Nat) :
    denseRates (cnnBatchLoop ops cfg args e) =
      (Batches args.batchSize args.nTrain).map
        fun b => (e, b, ops.div cfg.learningRate (ops.ofSizeT b.nData)) := by
  unfold cnnBatchLoop
  induction Batches args.batchSize args.nTrain with
  | nil => rfl
  | cons b bs ih =>
    rw [List.flatMap_cons, denseRates_append, ih]
    rfl

theorem epochOf_cnnBatchLoop (e : Nat) :
    ∀ ev ∈ cnnBatchLoop ops cfg args e, epochOf ev = some e := by
  intro ev hev
  simp only [cnnBatchLoop, List.mem_flatMap, List.mem_cons, List.mem_singleton,
    List.not_mem_nil, or_false] at hev
  obtain ⟨b, _, h | h⟩ := hev <;> (subst h; rfl)

theorem savedFiles_report (e : Nat) : savedFiles ([Event.report e] : List (Event F)) = [] := rfl

theorem savedFiles_save_model (fn : String) :
    savedFiles ([save_model fn] : List (Event F)) = [(fn, [Stage.cnn, Stage.dnn])] := rfl

theorem reportedEpochs_report (e : Nat) :
    reportedEpochs ([Event.report e] : List (Event F)) = [e] := rfl

theorem reportedEpochs_save_model (fn : String) :
    reportedEpochs ([save_model fn] : List (Event F)) = [] := rfl

/-- What the body of the loop of `cnn_train` does, by the outcome of its test. -/
theorem cnnEpoch_eq (s : CnnState F) :
    cnnEpoch ops cfg args env model_out s =
      if cnnGate ops cfg args env s.epoch = true then
        (Flow.breakLoop,
          ⟨s.epoch, s.log ++ cnnBatchLoop ops cfg args s.epoch ++ [Event.report s.epoch]⟩)
      else
        (Flow.nextEpoch,
          ⟨s.epoch, s.log ++ cnnBatchLoop ops cfg args s.epoch ++ [Event.report s.epoch] ++
            [save_model (model_out ++ "." ++ toString s.epoch)]⟩) := by
  simp only [cnnEpoch, cnnGate, validAccAt, Oracle.Eout, cnn_predict, dnn_predict]

/-- The run of the loop of `cnn_train` from state `s`, given enough fuel: it ends in
a state `f` at the first epoch from `s.epoch` on whose test succeeds, or at the
ceiling; the epochs before `f.epoch` were reported and check-pointed, the epoch
`f.epoch` is reported and not check-pointed when it is below the ceiling. -/
theorem cnnLoop_spec : ∀ (fuel : Nat) (s : CnnState F),
    cfg.maxEpoch ≤ s.epoch + fuel → s.epoch ≤ cfg.maxEpoch →
    ∃ f, cnnLoop ops cfg args env model_out fuel s = Run.finished f ∧
      s.epoch ≤ f.epoch ∧ f.epoch ≤ cfg.maxEpoch ∧
      (∀ j, s.epoch ≤ j → j < f.epoch → cnnGate ops cfg args env j = false) ∧
      (f.epoch < cfg.maxEpoch → cnnGate ops cfg args env f.epoch = true) ∧
      savedFiles f.log = savedFiles s.log ++
        (List.range' s.epoch (f.epoch - s.epoch)).map
          (fun e => (model_out ++ "." ++ toString e, [Stage.cnn, Stage.dnn])) ∧
      reportedEpochs f.log = reportedEpochs s.log ++
        List.range' s.epoch
          (f.epoch - s.epoch + if f.epoch < cfg.maxEpoch then 1 else 0) ∧
      (∀ ev ∈ f.log, ev ∈ s.log ∨ ∀ e, epochOf ev = some e → e < cfg.maxEpoch) := by
  intro fuel
  induction fuel with
  | zero =>
    intro s h1 h2
    have hge : ¬ s.epoch < cfg.maxEpoch := by omega
    refine ⟨s, by simp [cnnLoop, hge], le_refl _, h2, ?_, ?_, ?_, ?_, ?_⟩
    · intro j hj1 hj2; omega
    · intro h; exact absurd h hge
    · simp
    · simp [hge]
    · intro ev hev; exact Or.inl hev
  | succ n ih =>
    intro s h1 h2
    by_cases hlt : s.epoch < cfg.maxEpoch
    · cases hg : cnnGate ops cfg args env s.epoch
      · -- the test fails: checkpoint, next epoch
        have hstep := cnnEpoch_eq ops cfg args env model_out s
        simp only [hg, Bool.false_eq_true, if_false] at hstep
        obtain ⟨f, hf, hle, hmax, hgates, hstop, hsaved, hrep, hev⟩ :=
          ih ⟨s.epoch + 1, s.log ++ cnnBatchLoop ops cfg args s.epoch ++
            [Event.report s.epoch] ++ [save_model (model_out ++ "." ++ toString s.epoch)]⟩
            (by simp only; omega) (by simp only; omega)
        simp only at hle hgates hsaved hrep hev
        refine ⟨f, ?_, by omega, hmax, ?_, hstop, ?_, ?_, ?_⟩
        · simp only [cnnLoop, hlt, if_true, hstep]
          exact hf
        · intro j hj1 hj2
          by_cases hj : j = s.epoch
          · rw [hj]; exact hg
          · exact hgates j (by omega) hj2
        · rw [hsaved]
          have hk : f.epoch - s.epoch = (f.epoch - (s.epoch + 1)) + 1 := by omega
          rw [hk, List.range'_succ]
          simp only [savedFiles_append, savedFiles_cnnBatchLoop, savedFiles_report,
            savedFiles_save_model, List.append_nil, List.map_cons, List.append_assoc,
            List.singleton_append]
          rfl
        · rw [hrep]
          have hk : f.epoch - s.epoch + (if f.epoch < cfg.maxEpoch then 1 else 0) =
              (f.epoch - (s.epoch + 1) + if f.epoch < cfg.maxEpoch then 1 else 0) + 1 := by
            omega
          rw [hk, List.range'_succ]
          simp only [reportedEpochs_append, reportedEpochs_cnnBatchLoop, reportedEpochs_report,
            reportedEpochs_save_model, List.append_nil, List.append_assoc,
            List.singleton_append, List.nil_append]
          rfl
        · intro ev hmem
          rcases hev ev hmem with h | h
          · simp only [List.mem_append, List.mem_singleton] at h
            rcases h with ((h | h) | h) | h
            · exact Or.inl h
            · right
              intro e he
              rw [epochOf_cnnBatchLoop ops cfg args s.epoch ev h] at he
              simp only [Option.some.injEq] at he
              omega
            · right
              intro e he
              rw [h] at he
              simp only [epochOf, Option.some.injEq] at he
              omega
            · right
              intro e he
              rw [h] at he
              simp [epochOf, save_model] at he
          · exact Or.inr h
      · -- the test succeeds: break
        have hstep := cnnEpoch_eq ops cfg args env model_out s
        simp only [hg, if_true] at hstep
        refine ⟨⟨s.epoch, s.log ++ cnnBatchLoop ops cfg args s.epoch ++
          [Event.report s.epoch]⟩, ?_, le_refl _, h2, ?_, ?_, ?_, ?_, ?_⟩
        · simp only [cnnLoop, hlt, if_true, hstep]
        · intro j hj1 hj2; simp only at hj2; omega
        · intro _; exact hg
        · simp only [savedFiles_append, savedFiles_cnnBatchLoop, savedFiles_report,
            List.append_nil, Nat.sub_self, List.range'_zero, List.map_nil]
        · simp only [reportedEpochs_append, reportedEpochs_cnnBatchLoop, reportedEpochs_report,
            List.append_nil, Nat.sub_self, hlt, if_true, Nat.zero_add, List.range'_one,
            List.append_assoc, List.nil_append]
        · intro ev hmem
          simp only [List.mem_append, List.mem_singleton] at hmem
          rcases hmem with (h | h) | h
          · exact Or.inl h
          · right
            intro e he
            rw [epochOf_cnnBatchLoop ops cfg args s.epoch ev h] at he
            simp only [Option.some.injEq] at he
            omega
          · right
            intro e he
            rw [h] at he
            simp only [epochOf, Option.some.injEq] at he
            omega
    · have heq : s.epoch = cfg.maxEpoch := by omega
      refine ⟨s, by simp [cnnLoop, hlt], le_refl _, h2, ?_, ?_, ?_, ?_, ?_⟩
      · intro j hj1 hj2; omega
      · intro h; exact absurd h hlt
      · simp
      · simp [hlt]
      · intro ev hev; exact Or.inl hev

/-- With enough fuel the result of the loop of `cnn_train` does not depend on the fuel. -/
theorem cnnLoop_fuel_mono : ∀ (fuel : Nat) (s : CnnState F),
    cfg.maxEpoch ≤ s.epoch + fuel → ∀ fuel', fuel ≤ fuel' →
      cnnLoop ops cfg args env model_out fuel' s = cnnLoop ops cfg args env model_out fuel s := by
  intro fuel
  induction fuel with
  | zero =>
    intro s h fuel' _
    have hge : ¬ s.epoch < cfg.maxEpoch := by omega
    cases fuel' <;> simp [cnnLoop, hge]
  | succ n ih =>
    intro s h fuel' hle
    obtain ⟨m, rfl⟩ : ∃ m, fuel' = m + 1 := ⟨fuel' - 1, by omega⟩
    by_cases hlt : s.epoch < cfg.maxEpoch
    · have hstep := cnnEpoch_eq ops cfg args env model_out s
      cases hg : cnnGate ops cfg args env s.epoch
      · simp only [hg, Bool.false_eq_true, if_false] at hstep
        simp only [cnnLoop, hlt, if_true, hstep]
        exact ih _ (by simp only; omega) m (by omega)
      · simp only [hg, if_true] at hstep
        simp only [cnnLoop, hlt, if_true, hstep]
    · simp [cnnLoop, hlt]

/-- The run of `cnn_train`: it returns, in a state `f` whose epoch counter is the
first epoch whose test `validAcc > minValidAccuracy` succeeds, or the capped
ceiling when there is none. -/
theorem cnn_train_spec :
    ∃ f, cnn_train ops cfg args env model_out = Run.finished f ∧
      f.epoch ≤ min cfg.maxEpoch 1024 ∧
      (∀ j, j < f.epoch → cnnGate ops cfg args env j = false) ∧
      (f.epoch < min cfg.maxEpoch 1024 → cnnGate ops cfg args env f.epoch = true) ∧
      savedFiles f.log = (List.range f.epoch).map
          (fun e => (model_out ++ "." ++ toString e, [Stage.cnn, Stage.dnn])) ∧
      reportedEpochs f.log =
        List.range (f.epoch + if f.epoch < min cfg.maxEpoch 1024 then 1 else 0) ∧
      (∀ ev ∈ f.log, ∀ e, epochOf ev = some e → e < min cfg.maxEpoch 1024) := by
  obtain ⟨f, hf, _, hmax, hgates, hstop, hsaved, hrep, hev⟩ :=
    cnnLoop_spec ops (capEpoch cfg) args env model_out (capEpoch cfg).maxEpoch ⟨0, []⟩
      (by simp) (by simp)
  have hcap : (capEpoch cfg).maxEpoch = min cfg.maxEpoch 1024 := rfl
  rw [hcap] at hmax hstop hrep hev
  refine ⟨f, hf, hmax, fun j hj => hgates j (Nat.zero_le j) hj, hstop, ?_, ?_, ?_⟩
  · rw [hsaved, List.range_eq_range']
    rfl
  · rw [hrep, List.range_eq_range']
    simp [reportedEpochs]
  · intro ev hmem e he
    rcases hev ev hmem with h | h
    · simp at h
    · exact h e he

/-- C6: for every configured `maxEpoch` and every sequence of evaluation results,
`cnn_train` returns after running at most `min(maxEpoch, 1024)` epochs, none of
index `min(maxEpoch, 1024)` or more; any iteration bound of at least
`min(maxEpoch, 1024)` yields the same run. -/
theorem cnn_train_epoch_ceiling :
    ∃ f, cnn_train ops cfg args env model_out = Run.finished f ∧
      (reportedEpochs f.log).length ≤ min cfg.maxEpoch 1024 ∧
      (∀ ev ∈ f.log, ∀ e, epochOf ev = some e → e < min cfg.maxEpoch 1024) ∧
      (capEpoch cfg).maxEpoch = min cfg.maxEpoch 1024 ∧
      (∀ fuel, min cfg.maxEpoch 1024 ≤ fuel →
        cnnLoop ops (capEpoch cfg) args env model_out fuel ⟨0, []⟩ = Run.finished f) := by
  obtain ⟨f, hf, hmax, _, _, _, hrep, hev⟩ := cnn_train_spec ops cfg args env model_out
  refine ⟨f, hf, ?_, hev, rfl, ?_⟩
  · rw [hrep, List.length_range]
    split <;> omega
  · intro fuel hfuel
    rw [cnnLoop_fuel_mono ops (capEpoch cfg) args env model_out (capEpoch cfg).maxEpoch
      ⟨0, []⟩ (by simp) fuel hfuel]
    exact hf

/-- In exact rational arithmetic a smaller error count passes every accuracy
threshold that a larger one passes. -/
theorem ratOps_accuracy_mono (m : ℚ) (n : Nat) (a b : Nat) (hab : a ≤ b)
    (h : ratOps.lt m (accuracy ratOps b n) = true) :
    ratOps.lt m (accuracy ratOps a n) = true := by
  simp only [ratOps, accuracy, decide_eq_true_eq] at *
  have h1 : (a : ℚ) ≤ (b : ℚ) := by exact_mod_cast hab
  have h2 : (a : ℚ) / (n : ℚ) ≤ (b : ℚ) / (n : ℚ) :=
    div_le_div_of_nonneg_right h1 (by positivity)
  linarith

/-- C8, as stated, fails: in a run that stops on the accuracy condition at epoch 2,
epochs 0, 1 and 2 are run, and the files written are `model.0`, `model.1` and
`model`: no checkpoint `model.2` is written for the epoch at which the loop
stops. -/
theorem cnn_no_checkpoint_at_stop :
    ∃ log, cnnMain ratOps smallCfg smallArgs improvingEnv "model" = Run.finished log ∧
      reportedEpochs log = [0, 1, 2] ∧
      savedFiles log = [("model.0", [Stage.cnn, Stage.dnn]),
        ("model.1", [Stage.cnn, Stage.dnn]), ("model", [Stage.cnn, Stage.dnn])] := by
  with_unfolding_all exact ⟨_, rfl, rfl, rfl⟩

/-- C8 (amended): `cnn_train` writes a checkpoint holding the CNN parameters followed
by the DNN parameters to `model_out + "." + epoch` after every epoch that it runs
and that does not stop the loop (the epochs below the final value of `epoch`);
and the final model is written to `model_out` once, after the loop, whichever
branch ended it. -/
theorem cnn_checkpoints :
    ∃ f, cnn_train ops cfg args env model_out = Run.finished f ∧
      cnnMain ops cfg args env model_out = Run.finished (f.log ++ [save_model model_out]) ∧
      savedFiles (f.log ++ [save_model model_out]) =
        (List.range f.epoch).map
            (fun e => (model_out ++ "." ++ toString e, [Stage.cnn, Stage.dnn])) ++
          [(model_out, [Stage.cnn, Stage.dnn])] ∧
      reportedEpochs (f.log ++ [save_model model_out]) =
        List.range (f.epoch + if f.epoch < min cfg.maxEpoch 1024 then 1 else 0) ∧
      (f.epoch < min cfg.maxEpoch 1024 →
        ops.lt cfg.minValidAccuracy (validAccAt ops args env f.epoch) = true) := by
  obtain ⟨f, hf, _, _, hstop, hsaved, hrep, _⟩ := cnn_train_spec ops cfg args env model_out
  refine ⟨f, hf, ?_, ?_, ?_, hstop⟩
  · simp only [cnnMain, hf]
  · rw [savedFiles_append, hsaved, savedFiles_save_model]
  · rw [reportedEpochs_append, hrep, reportedEpochs_save_model, List.append_nil]

/-! ## Scenario 2 of the specification -/

/-- On the error sequence `50, 40, 42, 41, 41` with window 3, `isEoutStopDecrease`
is false at epoch 3 and true at epoch 4. -/
theorem isEoutStopDecrease_scenario2 :
    isEoutStopDecrease [50, 40, 42, 41] 3 3 = some false ∧
      isEoutStopDecrease [50, 40, 42, 41, 41] 4 3 = some true := by
  decide

/-- With `validAcc = 1 - Eout / nValid` in exact arithmetic, no threshold and no
size of the validation set put the accuracy of an epoch with 40 errors at or
below the threshold and that of an epoch with 42 errors above it. -/
theorem scenario2_premise_contradictory (m : ℚ) (nValid : Nat) :
    ¬ (ratOps.lt m (accuracy ratOps 40 nValid) = false ∧
        ratOps.lt m (accuracy ratOps 42 nValid) = true) := by
  rintro ⟨h40, h42⟩
  have := ratOps_accuracy_mono m nValid 40 42 (by decide) h42
  rw [h40] at this
  exact Bool.false_ne_true this

set_option maxRecDepth 100000 in
/-- Fed to `dnn_train` with 450 validation samples, threshold `0.9` and window 3, the
errors `50, 40, 42, 41, 41` put the accuracy above the threshold from epoch 1 on,
and the stop check of epoch 1 reads outside `Eout`. -/
theorem dnn_train_scenario2_undefined :
    ratOps.lt scenarioCfg.minValidAccuracy (validAccAt ratOps scenarioArgs scenarioEnv 0) = false ∧
    ratOps.lt scenarioCfg.minValidAccuracy (validAccAt ratOps scenarioArgs scenarioEnv 1) = true ∧
    dnn_train ratOps scenarioCfg scenarioArgs scenarioEnv = Run.undefinedRead := by
  refine ⟨?_, ?_, ?_⟩
  · with_unfolding_all decide
  · with_unfolding_all decide
  · with_unfolding_all rfl

/-! ## The learning rate of the dense stage -/

theorem denseRates_dnnBatchLoop (e : Nat) :
    denseRates (dnnBatchLoop ops cfg args e) =
      (Batches args.batchSize args.nTrain).map
        fun b => (e, b, ops.div cfg.learningRate (ops.ofSizeT args.batchSize)) := by
  unfold dnnBatchLoop
  induction Batches args.batchSize args.nTrain with
  | nil => rfl
  | cons b bs ih =>
    rw [List.map_cons, List.map_cons, ← ih]
    rfl

theorem dnnEpoch_denseRates (s : DnnState F) (flow : Flow) (s' : DnnState F)
    (h : dnnEpoch ops cfg args env s = some (flow, s')) :
    denseRates s'.log = denseRates s.log ++
      (Batches args.batchSize args.nTrain).map
        fun b => (s.epoch, b, ops.div cfg.learningRate (ops.ofSizeT args.batchSize)) := by
  unfold dnnEpoch at h
  simp only at h
  split at h
  · simp only [Option.some.injEq, Prod.mk.injEq] at h
    rw [← h.2]
    simp only [denseRates_append, denseRates_dnnBatchLoop]
    simp [denseRates]
  · split at h
    · exact absurd h (by simp)
    · split at h
      · split at h
        · exact absurd h (by simp)
        · simp only [Option.some.injEq, Prod.mk.injEq] at h
          rw [← h.2]
          simp only [denseRates_append, denseRates_dnnBatchLoop]
          simp [denseRates]
        · simp only [Option.some.injEq, Prod.mk.injEq] at h
          rw [← h.2]
          simp only [denseRates_append, denseRates_dnnBatchLoop]
          simp [denseRates]
      · simp only [Option.some.injEq, Prod.mk.injEq] at h
        rw [← h.2]
        simp only [denseRates_append, denseRates_dnnBatchLoop]
        simp [denseRates]

/-- The final range of `Batches` when the batch size does not divide the number of
samples: it holds the `N mod batchSize` samples that are left. -/
theorem Batches_getLast (batchSize N : Nat) (hpos : 0 < batchSize)
    (hrem : N % batchSize ≠ 0) :
    (Batches batchSize N).getLast? = some ⟨N / batchSize * batchSize, N % batchSize⟩ := by
  have hmod := Nat.mod_lt N hpos
  have hdm := Nat.div_add_mod N batchSize
  have hcount : (N + batchSize - 1) / batchSize = N / batchSize + 1 := by
    have h1 : N + batchSize - 1 = (N % batchSize - 1) + batchSize * (N / batchSize + 1) := by
      rw [Nat.mul_add, Nat.mul_one]
      omega
    rw [h1, Nat.add_mul_div_left _ _ hpos, Nat.div_eq_of_lt (by omega)]
    omega
  have hsub : N - N / batchSize * batchSize = N % batchSize := by
    rw [Nat.mul_comm]
    omega
  unfold Batches
  rw [hcount, List.range_succ, List.map_append, List.map_singleton, List.getLast?_append]
  simp [hsub, le_of_lt hmod]

set_option maxRecDepth 100000 in
/-- C5, as stated, fails for `dnn_train`: with 100 training samples and batches of
32 the final batch holds 4 samples, and it is back-propagated with
`learningRate / 32`, which is not `learningRate / 4`. -/
theorem dnn_train_final_batch_rate :
    (Batches scenarioArgs.batchSize scenarioArgs.nTrain).getLast? = some ⟨96, 4⟩ ∧
    (∃ s', dnnEpoch ratOps scenarioCfg scenarioArgs scenarioEnv (dnnInit ℚ) =
        some (Flow.nextEpoch, s') ∧
      (denseRates s'.log).getLast? =
        some (0, ⟨96, 4⟩, ratOps.div scenarioCfg.learningRate (ratOps.ofSizeT 32))) ∧
    ratOps.div scenarioCfg.learningRate (ratOps.ofSizeT 32) ≠
      ratOps.div scenarioCfg.learningRate (ratOps.ofSizeT 4) := by
  refine ⟨by decide, ?_, ?_⟩
  · with_unfolding_all exact ⟨_, rfl, rfl⟩
  · with_unfolding_all decide

/-- C5 (amended): in `cnn_train`, every mini-batch of every epoch is back-propagated
through the dense stage with `learningRate / nData`, `nData` being the sample
count of that batch; in `dnn_train`, every mini-batch of every epoch is
back-propagated with `learningRate / batchSize`.  When the number of training
samples is not a multiple of `batchSize`, the final batch holds
`N mod batchSize` samples. -/
theorem learning_rate_per_batch (sc : CnnState F) (sd : DnnState F) :
    denseRates (cnnEpoch ops cfg args env model_out sc).2.log = denseRates sc.log ++
      (Batches args.batchSize args.nTrain).map
        (fun b => (sc.epoch, b, ops.div cfg.learningRate (ops.ofSizeT b.nData))) ∧
    (∀ flow sd', dnnEpoch ops cfg args env sd = some (flow, sd') →
      denseRates sd'.log = denseRates sd.log ++
        (Batches args.batchSize args.nTrain).map
          (fun b => (sd.epoch, b, ops.div cfg.learningRate (ops.ofSizeT args.batchSize)))) ∧
    (0 < args.batchSize → args.nTrain % args.batchSize ≠ 0 →
      (Batches args.batchSize args.nTrain).getLast? =
        some ⟨args.nTrain / args.batchSize * args.batchSize, args.nTrain % args.batchSize⟩) := by
  refine ⟨?_, fun flow sd' h => dnnEpoch_denseRates ops cfg args env sd flow sd' h,
    fun hpos hrem => Batches_getLast _ _ hpos hrem⟩
  rw [cnnEpoch_eq]
  split
  · simp only [denseRates_append, denseRates_cnnBatchLoop, List.append_assoc]
    simp [denseRates]
  · simp only [denseRates_append, denseRates_cnnBatchLoop, List.append_assoc]
    simp [denseRates, save_model]

end cnn

/-! ## Properties of `getRandWeights` -/

theorem getRandWeightsLoop_spec (dims : List Nat) :
    ∀ (remaining i : Nat), i + remaining + 1 ≤ dims.length →
      ∃ ws, getRandWeightsLoop dims remaining i = some ws ∧ ws.length = remaining ∧
        ∀ j, j < remaining →
          ∃ r c, dims[i + j]? = some r ∧ dims[i + j + 1]? = some c ∧
            ws[j]? = some ⟨r, c⟩ := by
  intro remaining
  induction remaining with
  | zero =>
    intro i _
    exact ⟨[], rfl, rfl, fun j hj => absurd hj (Nat.not_lt_zero j)⟩
  | succ n ih =>
    intro i hle
    obtain ⟨ws, hws, hlen, hall⟩ := ih (i + 1) (by omega)
    have hi : i < dims.length := by omega
    have hi1 : i + 1 < dims.length := by omega
    refine ⟨rand dims[i] dims[i + 1] :: ws, ?_, by simp [hlen], ?_⟩
    · simp only [getRandWeightsLoop, List.getElem?_eq_getElem hi,
        List.getElem?_eq_getElem hi1, hws, Option.map_some']
    · intro j hj
      cases j with
      | zero =>
        exact ⟨dims[i], dims[i + 1], List.getElem?_eq_getElem hi,
          List.getElem?_eq_getElem hi1, by simp [rand]⟩
      | succ k =>
        obtain ⟨r, c, hr, hc, hw⟩ := hall k (by omega)
        refine ⟨r, c, ?_, ?_, ?_⟩
        · rw [← hr]; congr 1; omega
        · rw [← hc]; congr 1; omega
        · simpa using hw

/-- C7: for every `input_dim`, every list of hidden widths `h_1..h_k` and every
`output_dim`, `getRandWeights` builds the dimension list
`d = [input_dim+1, h_1+1, ..., h_k+1, output_dim+1]` (each `+1` the increment of a
`size_t`, which is the successor for every width below `2 ^ 64 - 1`) and returns
exactly `k + 1` tensors, the `i`-th of shape `d[i] × d[i+1]`; for `input_dim = 64`,
hidden widths `[8]` and `output_dim = 3` the list is `[65, 9, 4]` and the tensors
have shapes `65 × 9` and `9 × 4`. -/
theorem getRandWeights_shapes (input_dim : Nat) (hidden : List Nat) (output_dim : Nat) :
    getRandWeightsDims input_dim hidden output_dim =
      incrSizeT input_dim :: (hidden.map incrSizeT ++ [incrSizeT output_dim]) ∧
    ((∀ d ∈ input_dim :: (hidden ++ [output_dim]), d + 1 < SIZE_MOD) →
      getRandWeightsDims input_dim hidden output_dim =
        (input_dim + 1) :: (hidden.map (· + 1) ++ [output_dim + 1])) ∧
    (∃ ws, getRandWeights input_dim hidden output_dim = some ws ∧
      ws.length = hidden.length + 1 ∧
      ∀ i, i < hidden.length + 1 →
        ∃ r c, (getRandWeightsDims input_dim hidden output_dim)[i]? = some r ∧
          (getRandWeightsDims input_dim hidden output_dim)[i + 1]? = some c ∧
          ws[i]? = some ⟨r, c⟩) ∧
    getRandWeightsDims 64 [8] 3 = [65, 9, 4] ∧
    getRandWeights 64 [8] 3 = some [⟨65, 9⟩, ⟨9, 4⟩] := by
  have hdims : getRandWeightsDims input_dim hidden output_dim =
      incrSizeT input_dim :: (hidden.map incrSizeT ++ [incrSizeT output_dim]) := by
    simp [getRandWeightsDims]
  have hlen : (getRandWeightsDims input_dim hidden output_dim).length = hidden.length + 2 := by
    simp [hdims]
  refine ⟨hdims, ?_, ?_, by decide, by decide⟩
  · intro hsmall
    have hincr : ∀ d ∈ input_dim :: (hidden ++ [output_dim]), incrSizeT d = d + 1 :=
      fun d hd => Nat.mod_eq_of_lt (hsmall d hd)
    rw [hdims, hincr input_dim (by simp), hincr output_dim (by simp)]
    congr 2
    exact List.map_congr_left fun d hd => hincr d (by simp [hd])
  · obtain ⟨ws, hws, hwlen, hall⟩ :=
      getRandWeightsLoop_spec (getRandWeightsDims input_dim hidden output_dim)
        (hidden.length + 1) 0 (by omega)
    refine ⟨ws, ?_, hwlen, ?_⟩
    · simp only [getRandWeights, hlen]
      exact hws
    · intro i hi
      obtain ⟨r, c, hr, hc, hw⟩ := hall i hi
      exact ⟨r, c, by simpa using hr, by simpa using hc, hw⟩

end Libdnn
